import Mathlib

/-!
A shallow embedding, in Lean, of the core resolution and confirmation pipeline
of `src/main.py` (a chat-driven transaction-entry bot backed by a ledger
service), together with theorems checking the natural-language specification
against that embedding.

Modelling conventions:
* Python strings are Lean `String`s; character classes (`isalnum`, `isdigit`,
  whitespace, `lower`) are modelled over the ASCII range, which is the range
  exercised by the program's keyword patterns and by all inputs of interest.
* Python floats are modelled as rationals: the only arithmetic the pipeline
  performs on amounts is `abs` and negation, both of which are exact in
  IEEE-754, so the rational model is faithful for the properties stated here.
* Impure ingredients (the wall clock, the timezone database, the ledger
  client) are passed in explicitly as parameters.
-/

namespace BudgetLM

/-- A manual ledger account as consumed by the resolver (`acct.id`,
`acct.display_name`, `acct.name` in the source); `display_name` is optional. -/
structure Account where
  id : Int
  display_name : Option String
  name : String
  deriving DecidableEq, Repr

/-- `_account_label`: Python `account.display_name or account.name` — the
display name when present and non-empty (truthy), otherwise the plain name. -/
def _account_label (account : Account) : String :=
  match account.display_name with
  | some s => if s = "" then account.name else s
  | none => account.name

/-- The per-character step inside `_normalize`:
`ch.lower() if ch.isalnum() else " "`. -/
def normChar (ch : Char) : Char :=
  if ch.isAlphanum then ch.toLower else ' '

/-- Python `str.split()` restricted to the one whitespace character that can
occur after the character map of `_normalize` (every other character is either
alphanumeric or was replaced by `' '`): the maximal space-free words of the
character list, in order, with empty words dropped. -/
def words (cs : List Char) : List (List Char) :=
  match cs with
  | [] => []
  | c :: rest =>
    if c = ' ' then words rest
    else (c :: rest.takeWhile (fun d => d ≠ ' ')) :: words (rest.dropWhile (fun d => d ≠ ' '))
termination_by cs.length
decreasing_by
  · simp only [List.length_cons]
    exact Nat.lt_succ_of_le (Nat.le_refl _)
  · simp only [List.length_cons]
    exact Nat.lt_succ_of_le ((List.dropWhile_sublist _).length_le)

/-- Python `" ".join(ws)`: the words joined with a single space separator. -/
def joinWords : List (List Char) → List Char
  | [] => []
  | [w] => w
  | w :: ws => w ++ ' ' :: joinWords ws

/-- `_normalize`: lowercase, replace every non-alphanumeric character with a
space, then `" ".join(normalized.strip().split())` (splitting already discards
leading/trailing and repeated spaces, so `strip` is subsumed). -/
def _normalize (value : String) : String :=
  ⟨joinWords (words (value.data.map normChar))⟩

/-! ### Character-level facts used for idempotence of `_normalize` -/

theorem isAlphanum_toNat_bounds (c : Char) (h : c.isAlphanum = true) :
    48 ≤ c.toNat ∧ c.toNat ≤ 122 := by
  simp [Char.isAlphanum, Char.isAlpha, Char.isUpper, Char.isLower, Char.isDigit] at h
  rcases h with (⟨h1, h2⟩ | ⟨h1, h2⟩) | ⟨h1, h2⟩
  · exact ⟨le_trans (by omega) (@UInt32.le_toNat_of_le c.val 65 (by decide) h1),
           le_trans (@UInt32.toNat_le_of_le c.val 90 (by decide) h2) (by omega)⟩
  · exact ⟨le_trans (by omega) (@UInt32.le_toNat_of_le c.val 97 (by decide) h1),
           le_trans (@UInt32.toNat_le_of_le c.val 122 (by decide) h2) (by omega)⟩
  · exact ⟨le_trans (by omega) (@UInt32.le_toNat_of_le c.val 48 (by decide) h1),
           le_trans (@UInt32.toNat_le_of_le c.val 57 (by decide) h2) (by omega)⟩

theorem toLower_alnum_fix (c : Char) (h : c.isAlphanum = true) :
    (Char.toLower c).isAlphanum = true ∧ (Char.toLower c).toLower = Char.toLower c := by
  obtain ⟨h1, h2⟩ := isAlphanum_toNat_bounds c h
  rw [← Char.ofNat_toNat c] at h ⊢
  generalize c.toNat = n at h1 h2 h
  interval_cases n <;> first | exact ⟨by decide, by decide⟩ | exact absurd h (by decide)

theorem normChar_idem (ch : Char) : normChar (normChar ch) = normChar ch := by
  by_cases h : ch.isAlphanum
  · obtain ⟨ha, hf⟩ := toLower_alnum_fix ch h
    simp [normChar, h, ha, hf]
  · simp only [normChar, h, if_false, Bool.false_eq_true, ite_false]
    decide

/-! ### Structure of `words` and `joinWords` -/

theorem words_ne_nil (cs : List Char) : ∀ w ∈ words cs, w ≠ [] := by
  induction cs using words.induct with
  | case1 => simp [words]
  | case2 rest ih => simpa [words] using ih
  | case3 c rest h ih =>
    intro w hw
    rw [words] at hw
    simp only [h, if_false] at hw
    rcases List.mem_cons.mp hw with rfl | hw
    · simp
    · exact ih w hw

theorem words_no_space (cs : List Char) : ∀ w ∈ words cs, ' ' ∉ w := by
  induction cs using words.induct with
  | case1 => simp [words]
  | case2 rest ih => simpa [words] using ih
  | case3 c rest h ih =>
    intro w hw
    rw [words] at hw
    simp only [h, if_false] at hw
    rcases List.mem_cons.mp hw with rfl | hw
    · intro hmem
      rcases List.mem_cons.mp hmem with rfl | hmem
      · exact h rfl
      · simpa using List.mem_takeWhile_imp hmem
    · exact ih w hw

theorem words_subset (cs : List Char) : ∀ w ∈ words cs, ∀ c ∈ w, c ∈ cs := by
  induction cs using words.induct with
  | case1 => simp [words]
  | case2 rest ih =>
    intro w hw d hd
    rw [words] at hw
    simp only [if_pos rfl] at hw
    exact List.mem_cons_of_mem _ (ih w hw d hd)
  | case3 c rest h ih =>
    intro w hw d hd
    rw [words] at hw
    simp only [h, if_false] at hw
    rcases List.mem_cons.mp hw with rfl | hw
    · rcases List.mem_cons.mp hd with rfl | hd
      · exact List.mem_cons_self _ _
      · exact List.mem_cons_of_mem _ ((List.takeWhile_sublist _).subset hd)
    · exact List.mem_cons_of_mem _ ((List.dropWhile_sublist _).subset (ih w hw d hd))

theorem words_joinWords (ws : List (List Char))
    (hne : ∀ w ∈ ws, w ≠ []) (hsp : ∀ w ∈ ws, ' ' ∉ w) :
    words (joinWords ws) = ws := by
  induction ws with
  | nil => simp [joinWords, words]
  | cons w ws ih =>
    have hwne : w ≠ [] := hne w (List.mem_cons_self _ _)
    have hwsp : ' ' ∉ w := hsp w (List.mem_cons_self _ _)
    obtain ⟨c, rest, rfl⟩ := List.exists_cons_of_ne_nil hwne
    have hc : ¬ c = ' ' := fun hEq => hwsp (hEq ▸ List.mem_cons_self _ _)
    have hrest : ∀ d ∈ rest, (fun d => decide (d ≠ ' ')) d = true := by
      intro d hd
      simp only [decide_eq_true_eq]
      intro hEq
      exact hwsp (hEq ▸ List.mem_cons_of_mem _ hd)
    cases ws with
    | nil =>
      show words (c :: rest) = [c :: rest]
      rw [words]
      simp only [hc, if_false]
      rw [List.takeWhile_eq_self_iff.mpr hrest,
          List.dropWhile_eq_nil_iff.mpr (by intro d hd; simpa using hrest d hd)]
      simp [words]
    | cons w2 ws2 =>
      show words ((c :: rest) ++ ' ' :: joinWords (w2 :: ws2)) = _
      rw [List.cons_append, words]
      simp only [hc, if_false]
      rw [List.takeWhile_append_of_pos hrest, List.dropWhile_append_of_pos hrest]
      have htw : List.takeWhile (fun d => decide (d ≠ ' ')) (' ' :: joinWords (w2 :: ws2)) = [] := by
        simp [List.takeWhile]
      have hdw : List.dropWhile (fun d => decide (d ≠ ' ')) (' ' :: joinWords (w2 :: ws2)) =
          ' ' :: joinWords (w2 :: ws2) := by
        simp [List.dropWhile]
      rw [htw, hdw, List.append_nil, words]
      rw [if_pos rfl]
      rw [ih (fun w hw => hne w (List.mem_cons_of_mem _ hw))
            (fun w hw => hsp w (List.mem_cons_of_mem _ hw))]

theorem map_normChar_joinWords (ws : List (List Char))
    (hfix : ∀ w ∈ ws, ∀ c ∈ w, normChar c = c) :
    (joinWords ws).map normChar = joinWords ws := by
  induction ws with
  | nil => rfl
  | cons w ws ih =>
    have hw : w.map normChar = w := by
      rw [List.map_congr_left (hfix w (List.mem_cons_self _ _))]
      exact List.map_id w
    cases ws with
    | nil => simpa [joinWords] using hw
    | cons w2 ws2 =>
      show (w ++ ' ' :: joinWords (w2 :: ws2)).map normChar = _
      rw [List.map_append, List.map_cons, hw,
          ih (fun w hw => hfix w (List.mem_cons_of_mem _ hw))]
      rfl

/-- C8: `_normalize` is idempotent — `normalize(normalize(s)) == normalize(s)`
for every string `s` — and it is a total pure function mapping the empty
string to the empty string. -/
theorem normalize_idempotent :
    (∀ s : String, _normalize (_normalize s) = _normalize s) ∧ _normalize "" = "" := by
  refine ⟨fun s => ?_, by simp [_normalize, words, joinWords]⟩
  show (⟨joinWords (words ((joinWords (words (s.data.map normChar))).map normChar))⟩ : String) = _
  set ws := words (s.data.map normChar) with hws
  have hne : ∀ w ∈ ws, w ≠ [] := words_ne_nil _
  have hsp : ∀ w ∈ ws, ' ' ∉ w := words_no_space _
  have hfix : ∀ w ∈ ws, ∀ c ∈ w, normChar c = c := by
    intro w hw c hc
    obtain ⟨d, _, rfl⟩ := List.mem_map.mp (words_subset _ w hw c hc)
    exact normChar_idem d
  rw [map_normChar_joinWords ws hfix, words_joinWords ws hne hsp]
  rfl

/-! ### Account matching (`match_account`, lines 170-217 of the source) -/

/-- Python `str.strip()`: drop leading and trailing whitespace. -/
def pyStrip (s : String) : String :=
  ⟨((s.data.dropWhile Char.isWhitespace).reverse.dropWhile Char.isWhitespace).reverse⟩

/-- Python `str.isdigit()` (ASCII): non-empty and all decimal digits. -/
def isDigits (s : String) : Bool :=
  !s.data.isEmpty && s.data.all Char.isDigit

/-- Python `int(...)` applied to a string of decimal digits. -/
def decimalValue (s : String) : Int :=
  s.data.foldl (fun n c => 10 * n + Int.ofNat (c.toNat - 48)) 0

/-- Python substring containment `needle in hay` (contiguous). -/
def substrB (needle : List Char) : List Char → Bool
  | [] => needle.isEmpty
  | c :: t => needle.isPrefixOf (c :: t) || substrB needle t

/-- `len(set(normalized.split()) & needle_tokens)`: the number of distinct
whitespace-delimited tokens of the label shared with the needle's tokens. -/
def overlapScore (needleWords : List (List Char)) (label_norm : List Char) : Nat :=
  (((words label_norm).dedup).filter (fun w => needleWords.contains w)).length

/-- The normalized label of an account, as a character list:
`_normalize(_account_label(acct))`. -/
def normLabel (acct : Account) : List Char :=
  (_normalize (_account_label acct)).data

/-- The accumulator of the scanning loop in `match_account`
(the local variables `exact`, `contains`, `contained_by`, `token_best`,
`token_best_score`, `token_tie`). -/
structure MatchState where
  exact : Option Account
  contains : Option Account
  contained_by : Option Account
  token_best : Option Account
  token_best_score : Nat
  token_tie : Bool
  deriving DecidableEq, Repr

/-- The loop body of `match_account` for one non-exact account: record the
first `contains` / `contained_by` hits (`contains = contains or acct`), then
update the running token-overlap maximum and its tie flag. -/
def matchStep (needle : List Char) (needleWords : List (List Char)) (st : MatchState)
    (acct : Account) : MatchState :=
  let normalized := normLabel acct
  let st1 := if substrB needle normalized then
      { st with contains := st.contains.or (some acct) } else st
  let st2 := if substrB normalized needle then
      { st1 with contained_by := st1.contained_by.or (some acct) } else st1
  let overlap := overlapScore needleWords normalized
  if st2.token_best_score < overlap then
    { st2 with token_best := some acct, token_best_score := overlap, token_tie := false }
  else if overlap ≠ 0 ∧ overlap = st2.token_best_score then
    { st2 with token_tie := true }
  else st2

/-- The `for acct in accounts` loop of `match_account`: the body updates the
accumulator; on the first exact normalized hit the loop `break`s. -/
def matchLoop (needle : List Char) (needleWords : List (List Char)) :
    List Account → MatchState → MatchState
  | [], st => st
  | acct :: rest, st =>
    if normLabel acct = needle then { st with exact := some acct }
    else matchLoop needle needleWords rest (matchStep needle needleWords st acct)

/-- The name-based portion of `match_account` (source lines 181-217): compute
the normalized needle, abstain if it is empty, otherwise scan the accounts and
assemble `exact or contains or contained_by or token_match`. -/
def _match_by_name (account_name : String) (accounts : List Account) : Option (Int × String) :=
  let needle := (_normalize account_name).data
  if needle.isEmpty then none
  else
    let st := matchLoop needle (words needle) accounts ⟨none, none, none, none, 0, false⟩
    let token_match := if 0 < st.token_best_score ∧ st.token_tie = false then st.token_best else none
    let m := st.exact.or (st.contains.or (st.contained_by.or token_match))
    m.map (fun a => (a.id, _account_label a))

/-- `match_account`: `None`/empty name abstains; a purely numeric (after
strip) name is first tried as a literal account id; otherwise fall through to
the normalized-name scan. -/
def match_account (account_name : Option String) (accounts : List Account) :
    Option (Int × String) :=
  match account_name with
  | none => none
  | some an =>
    if an = "" then none
    else
      match (if isDigits (pyStrip an) then
          accounts.find? (fun acct => acct.id == decimalValue (pyStrip an)) else none) with
      | some acct => some (acct.id, _account_label acct)
      | none => _match_by_name an accounts

/-- The sole-account fallback of `resolve_account`:
`if len(accounts) == 1: only = accounts[0]`. -/
def soleFallback (accounts : List Account) : Option (Int × String) :=
  match accounts with
  | [only] => some (only.id, _account_label only)
  | _ => none

/-- `resolve_account`: name-based match, else configured default id (only when
that id is present in the account list), else the sole account, else `None`. -/
def resolve_account (account_name : Option String) (accounts : List Account)
    (default_account_id : Option Int) : Option (Int × String) :=
  match match_account account_name accounts with
  | some m => some m
  | none =>
    match default_account_id with
    | some did =>
      match accounts.find? (fun acct => acct.id == did) with
      | some by_default_id => some (by_default_id.id, _account_label by_default_id)
      | none => soleFallback accounts
    | none => soleFallback accounts

/-! ### Specification-side tier functions (the precedence tiers as the spec
words them), used to state the claims about `match_account`. -/

/-- Tier (a): the first account whose normalized label equals the needle. -/
def exactTierSpec (needle : List Char) (accounts : List Account) : Option Account :=
  accounts.find? (fun a => normLabel a == needle)

/-- Tier (b): the first account whose normalized label contains the needle. -/
def containsTierSpec (needle : List Char) (accounts : List Account) : Option Account :=
  accounts.find? (fun a => substrB needle (normLabel a))

/-- Tier (c): the first account whose normalized label is contained in the
needle. -/
def containedByTierSpec (needle : List Char) (accounts : List Account) : Option Account :=
  accounts.find? (fun a => substrB (normLabel a) needle)

/-- The maximum token-overlap score over the account list. -/
def maxOverlapSpec (nW : List (List Char)) (accounts : List Account) : Nat :=
  accounts.foldr (fun a m => max (overlapScore nW (normLabel a)) m) 0

/-- How many accounts attain a given overlap score. -/
def countMaxSpec (nW : List (List Char)) (accounts : List Account) (m : Nat) : Nat :=
  (accounts.filter (fun a => overlapScore nW (normLabel a) == m)).length

/-- Tier (d): the strict-maximum token-overlap scorer, void when the maximum
is zero or attained by two or more accounts. -/
def tokenTierSpec (needle : List Char) (accounts : List Account) : Option Account :=
  let nW := words needle
  let m := maxOverlapSpec nW accounts
  if 0 < m ∧ countMaxSpec nW accounts m = 1 then
    accounts.find? (fun a => overlapScore nW (normLabel a) == m)
  else none

theorem maxOverlapSpec_cons (nW : List (List Char)) (a : Account) (rest : List Account) :
    maxOverlapSpec nW (a :: rest) =
      max (overlapScore nW (normLabel a)) (maxOverlapSpec nW rest) := rfl

theorem countMaxSpec_cons (nW : List (List Char)) (a : Account) (rest : List Account) (m : Nat) :
    countMaxSpec nW (a :: rest) m =
      (if overlapScore nW (normLabel a) = m then 1 else 0) + countMaxSpec nW rest m := by
  simp only [countMaxSpec, List.filter_cons]
  by_cases h : overlapScore nW (normLabel a) = m
  · simp [h, Nat.add_comm]
  · simp [h]

theorem maxOverlapSpec_attained (nW : List (List Char)) (l : List Account)
    (h : 0 < maxOverlapSpec nW l) : 1 ≤ countMaxSpec nW l (maxOverlapSpec nW l) := by
  induction l with
  | nil => simp [maxOverlapSpec] at h
  | cons a rest ih =>
    rw [maxOverlapSpec_cons] at h ⊢
    rw [countMaxSpec_cons]
    rcases Nat.lt_or_ge (maxOverlapSpec nW rest) (overlapScore nW (normLabel a)) with hlt | hge
    · rw [Nat.max_eq_left (Nat.le_of_lt hlt)]
      simp
    · rw [Nat.max_eq_right hge] at h ⊢
      have := ih h
      omega

theorem matchStep_exact (needle : List Char) (nW : List (List Char)) (st : MatchState)
    (a : Account) : (matchStep needle nW st a).exact = st.exact := by
  simp only [matchStep]
  split_ifs <;> rfl

theorem matchStep_contains (needle : List Char) (nW : List (List Char)) (st : MatchState)
    (a : Account) : (matchStep needle nW st a).contains =
      if substrB needle (normLabel a) then st.contains.or (some a) else st.contains := by
  simp only [matchStep]
  split_ifs <;> rfl

theorem matchStep_contained_by (needle : List Char) (nW : List (List Char)) (st : MatchState)
    (a : Account) : (matchStep needle nW st a).contained_by =
      if substrB (normLabel a) needle then st.contained_by.or (some a) else st.contained_by := by
  simp only [matchStep]
  split_ifs <;> rfl

theorem matchStep_token_best_score (needle : List Char) (nW : List (List Char)) (st : MatchState)
    (a : Account) : (matchStep needle nW st a).token_best_score =
      max st.token_best_score (overlapScore nW (normLabel a)) := by
  simp only [matchStep]
  split_ifs <;> first | (dsimp only at *; omega) | omega

theorem matchStep_token_best (needle : List Char) (nW : List (List Char)) (st : MatchState)
    (a : Account) : (matchStep needle nW st a).token_best =
      if st.token_best_score < overlapScore nW (normLabel a) then some a
      else st.token_best := by
  simp only [matchStep]
  split_ifs <;> rfl

theorem matchStep_token_tie (needle : List Char) (nW : List (List Char)) (st : MatchState)
    (a : Account) : (matchStep needle nW st a).token_tie =
      if st.token_best_score < overlapScore nW (normLabel a) then false
      else if overlapScore nW (normLabel a) ≠ 0 ∧
          overlapScore nW (normLabel a) = st.token_best_score then true
      else st.token_tie := by
  simp only [matchStep]
  split_ifs <;> rfl

theorem containsTierSpec_cons (needle : List Char) (a : Account) (rest : List Account) :
    containsTierSpec needle (a :: rest) =
      if substrB needle (normLabel a) then some a else containsTierSpec needle rest := by
  by_cases hb : substrB needle (normLabel a)
  · simp [containsTierSpec, List.find?_cons_of_pos, hb]
  · simp [containsTierSpec, List.find?_cons_of_neg, hb]

theorem containedByTierSpec_cons (needle : List Char) (a : Account) (rest : List Account) :
    containedByTierSpec needle (a :: rest) =
      if substrB (normLabel a) needle then some a else containedByTierSpec needle rest := by
  by_cases hb : substrB (normLabel a) needle
  · simp [containedByTierSpec, List.find?_cons_of_pos, hb]
  · simp [containedByTierSpec, List.find?_cons_of_neg, hb]

theorem overlap_le_maxOverlapSpec (nW : List (List Char)) (l : List Account) :
    ∀ a ∈ l, overlapScore nW (normLabel a) ≤ maxOverlapSpec nW l := by
  induction l with
  | nil => simp
  | cons b rest ih =>
    intro a ha
    rw [maxOverlapSpec_cons]
    rcases List.mem_cons.mp ha with rfl | ha
    · exact Nat.le_max_left _ _
    · exact Nat.le_trans (ih a ha) (Nat.le_max_right _ _)

theorem countMaxSpec_eq_zero_of_gt (nW : List (List Char)) (l : List Account) (m : Nat)
    (h : maxOverlapSpec nW l < m) : countMaxSpec nW l m = 0 := by
  have : ∀ a ∈ l, ¬ (overlapScore nW (normLabel a) == m) = true := by
    intro a ha
    have := overlap_le_maxOverlapSpec nW l a ha
    simp only [beq_iff_eq]
    omega
  simp [countMaxSpec, List.filter_eq_nil_iff.mpr this]

/-- Characterization of the scanning loop on a segment with no exact hit. -/
theorem matchLoop_no_exact (needle : List Char) (nW : List (List Char)) (l : List Account) :
    ∀ st : MatchState, (∀ a ∈ l, normLabel a ≠ needle) →
    matchLoop needle nW l st =
      { exact := st.exact
        contains := st.contains.or (containsTierSpec needle l)
        contained_by := st.contained_by.or (containedByTierSpec needle l)
        token_best :=
          if st.token_best_score < maxOverlapSpec nW l then
            l.find? (fun a => overlapScore nW (normLabel a) == maxOverlapSpec nW l)
          else st.token_best
        token_best_score := max st.token_best_score (maxOverlapSpec nW l)
        token_tie :=
          if st.token_best_score < maxOverlapSpec nW l then
            decide (2 ≤ countMaxSpec nW l (maxOverlapSpec nW l))
          else if 0 < maxOverlapSpec nW l ∧ maxOverlapSpec nW l = st.token_best_score then
            true
          else st.token_tie } := by
  induction l with
  | nil =>
    intro st _
    simp [matchLoop, containsTierSpec, containedByTierSpec, maxOverlapSpec, countMaxSpec]
  | cons a rest ih =>
    intro st h
    have ha : ¬ (normLabel a = needle) := h a (List.mem_cons_self _ _)
    have hrest : ∀ x ∈ rest, normLabel x ≠ needle :=
      fun x hx => h x (List.mem_cons_of_mem _ hx)
    rw [matchLoop, if_neg ha, ih _ hrest]
    simp only [MatchState.mk.injEq]
    refine ⟨matchStep_exact needle nW st a, ?_, ?_, ?_, ?_, ?_⟩
    · rw [matchStep_contains, containsTierSpec_cons]
      by_cases hb : substrB needle (normLabel a)
      · simp [hb, Option.or_assoc]
      · simp [hb]
    · rw [matchStep_contained_by, containedByTierSpec_cons]
      by_cases hb : substrB (normLabel a) needle
      · simp [hb, Option.or_assoc]
      · simp [hb]
    · -- token_best
      rw [matchStep_token_best, matchStep_token_best_score, maxOverlapSpec_cons]
      set o := overlapScore nW (normLabel a) with ho
      set M := maxOverlapSpec nW rest with hM
      set ts := st.token_best_score with hts
      rcases Nat.lt_trichotomy o M with h2 | h2 | h2
      · rw [Nat.max_eq_right (by omega : o ≤ M),
            List.find?_cons_of_neg _ (by simp only [← ho, beq_iff_eq]; omega)]
        by_cases h1 : ts < M
        · rw [if_pos (by omega : max ts o < M), if_pos h1]
        · rw [if_neg (by omega : ¬ max ts o < M), if_neg h1,
              if_neg (by omega : ¬ ts < o)]
      · rw [h2, Nat.max_self, List.find?_cons_of_pos _ (by simp [← ho, ← h2]),
            if_neg (by omega : ¬ max ts M < M)]
      · rw [Nat.max_eq_left (by omega : M ≤ o),
            List.find?_cons_of_pos _ (by simp [← ho]),
            if_neg (by omega : ¬ max ts o < M)]
    · -- token_best_score
      rw [matchStep_token_best_score, maxOverlapSpec_cons]
      omega
    · -- token_tie
      rw [matchStep_token_tie, matchStep_token_best_score, maxOverlapSpec_cons,
          countMaxSpec_cons]
      set o := overlapScore nW (normLabel a) with ho
      set M := maxOverlapSpec nW rest with hM
      set ts := st.token_best_score with hts
      rcases Nat.lt_trichotomy o M with h2 | h2 | h2
      · rw [Nat.max_eq_right (by omega : o ≤ M), if_neg (by omega : ¬ o = M), Nat.zero_add]
        split_ifs <;>
          first
            | rfl
            | (exfalso; omega)
      · rw [← h2, Nat.max_self, if_pos rfl]
        by_cases h1 : ts < o
        · have h3 : 1 ≤ countMaxSpec nW rest o := by
            have h5 := maxOverlapSpec_attained nW rest (by rw [← hM, ← h2]; omega)
            rwa [← hM, ← h2] at h5
          rw [Nat.max_eq_right (by omega : ts ≤ o)]
          split_ifs <;>
            first
              | rfl
              | (exfalso; omega)
              | (refine (decide_eq_true ?_).symm; omega)
        · rw [Nat.max_eq_left (by omega : o ≤ ts)]
          split_ifs <;>
            first
              | rfl
              | (exfalso; omega)
      · have h3 : countMaxSpec nW rest o = 0 := by
          have h5 := countMaxSpec_eq_zero_of_gt nW rest o (by rw [← hM]; omega)
          exact h5
        rw [Nat.max_eq_left (by omega : M ≤ o), if_pos rfl]
        by_cases h1 : ts < o
        · rw [Nat.max_eq_right (by omega : ts ≤ o)]
          split_ifs <;>
            first
              | rfl
              | (exfalso; omega)
              | (refine (decide_eq_false ?_).symm; omega)
        · rw [Nat.max_eq_left (by omega : o ≤ ts)]
          split_ifs <;>
            first
              | rfl
              | (exfalso; omega)



theorem matchLoop_break (needle : List Char) (nW : List (List Char)) (l1 : List Account)
    (a : Account) (l2 : List Account) :
    ∀ st : MatchState, (∀ x ∈ l1, normLabel x ≠ needle) → normLabel a = needle →
    matchLoop needle nW (l1 ++ a :: l2) st =
      { matchLoop needle nW l1 st with exact := some a } := by
  induction l1 with
  | nil =>
    intro st _ hexact
    simp only [List.nil_append, matchLoop, if_pos hexact]
  | cons b l1 ih =>
    intro st h hexact
    have hb : ¬ normLabel b = needle := h b (List.mem_cons_self _ _)
    simp only [List.cons_append, matchLoop, if_neg hb, List.append_eq]
    rw [ih _ (fun x hx => h x (List.mem_cons_of_mem _ hx)) hexact]

theorem _match_by_name_eq_tiers (account_name : String) (accounts : List Account)
    (hne : _normalize account_name ≠ "") :
    _match_by_name account_name accounts =
      ((exactTierSpec (_normalize account_name).data accounts).or
        ((containsTierSpec (_normalize account_name).data accounts).or
          ((containedByTierSpec (_normalize account_name).data accounts).or
            (tokenTierSpec (_normalize account_name).data accounts)))).map
        (fun a => (a.id, _account_label a)) := by
  set needle := (_normalize account_name).data with hneedle
  have hnempty : needle.isEmpty = false := by
    rcases h : needle with _ | ⟨c, cs⟩
    · exact absurd (congrArg String.mk (hneedle.symm.trans h)) hne
    · rfl
  rw [_match_by_name]
  simp only [← hneedle, hnempty, Bool.false_eq_true, if_false]
  cases hfind : exactTierSpec needle accounts with
  | some a =>
    obtain ⟨hpa, as, bs, rfl, hprev⟩ := List.find?_eq_some.mp hfind
    have hpa2 : normLabel a = needle := by simpa using hpa
    have hprev2 : ∀ x ∈ as, normLabel x ≠ needle := by
      intro x hx
      have := hprev x hx
      simpa using this
    rw [matchLoop_break needle (words needle) as a bs _ hprev2 hpa2]
    simp [Option.or_some]
  | none =>
    have hnoexact : ∀ x ∈ accounts, normLabel x ≠ needle := by
      simpa [exactTierSpec] using hfind
    rw [matchLoop_no_exact needle (words needle) accounts _ hnoexact]
    dsimp only
    simp only [Option.none_or, Nat.zero_max]
    rw [tokenTierSpec]
    by_cases hm : 0 < maxOverlapSpec (words needle) accounts
    · simp only [if_pos hm]
      have hatt := maxOverlapSpec_attained (words needle) accounts hm
      by_cases htie : 2 ≤
          countMaxSpec (words needle) accounts (maxOverlapSpec (words needle) accounts)
      · rw [decide_eq_true htie,
            if_neg (by omega : ¬ (0 < maxOverlapSpec (words needle) accounts ∧
              countMaxSpec (words needle) accounts (maxOverlapSpec (words needle) accounts) = 1))]
        simp
      · have hone : countMaxSpec (words needle) accounts
            (maxOverlapSpec (words needle) accounts) = 1 := by omega
        rw [decide_eq_false htie,
            if_pos (show 0 < maxOverlapSpec (words needle) accounts ∧ false = false from
              ⟨hm, rfl⟩),
            if_pos ⟨hm, hone⟩]
    · simp only [if_neg hm,
        if_neg (by omega : ¬ (0 < maxOverlapSpec (words needle) accounts ∧
          maxOverlapSpec (words needle) accounts = 0))]
      rw [if_neg (by omega : ¬ (0 < maxOverlapSpec (words needle) accounts ∧
        countMaxSpec (words needle) accounts (maxOverlapSpec (words needle) accounts) = 1))]
      simp

theorem _normalize_empty : _normalize "" = "" := by
  simp [_normalize, words, joinWords]

/-- C2: in the name-based matching scan (a needle that normalizes non-empty,
with the numeric-id shortcut abstaining), the tiers apply in fixed precedence:
the first exact normalized-label hit; else the first label containing the
needle; else the first label contained in the needle; else the strict-maximum
non-zero token-overlap scorer, void on a tie for the maximum; else none. -/
theorem match_account_tier_precedence (account_name : String) (accounts : List Account)
    (hne : _normalize account_name ≠ "")
    (hnum : isDigits (pyStrip account_name) = true →
      accounts.find? (fun acct => acct.id == decimalValue (pyStrip account_name)) = none) :
    match_account (some account_name) accounts =
      ((exactTierSpec (_normalize account_name).data accounts).or
        ((containsTierSpec (_normalize account_name).data accounts).or
          ((containedByTierSpec (_normalize account_name).data accounts).or
            (tokenTierSpec (_normalize account_name).data accounts)))).map
        (fun a => (a.id, _account_label a)) := by
  have hn : ¬ (account_name = "") := by
    intro h
    rw [h, _normalize_empty] at hne
    exact hne rfl
  cases hd : isDigits (pyStrip account_name) with
  | false =>
    simp only [match_account, if_neg hn, hd, Bool.false_eq_true, if_false]
    exact _match_by_name_eq_tiers account_name accounts hne
  | true =>
    simp only [match_account, if_neg hn, hd, if_true, hnum hd]
    exact _match_by_name_eq_tiers account_name accounts hne

/-- Witness for C2 at the spec example: with accounts `Chase Credit` and
`Chase Checking` and name `Chase Credit`, the exact tier wins even though
`chase` matches both by substring. -/
theorem match_account_tier_precedence_witness :
    _normalize "Chase Credit" ≠ "" ∧
    match_account (some "Chase Credit")
      [⟨1, none, "Chase Credit"⟩, ⟨2, none, "Chase Checking"⟩] = some (1, "Chase Credit") := by
  have hne : _normalize "Chase Credit" ≠ "" := by
    simp [_normalize, words, joinWords, normChar, Char.isAlphanum, Char.isAlpha,
      Char.isUpper, Char.isLower, Char.isDigit, Char.toLower]
  refine ⟨hne, ?_⟩
  rw [match_account_tier_precedence "Chase Credit"
    [⟨1, none, "Chase Credit"⟩, ⟨2, none, "Chase Checking"⟩] hne ?hnum]
  case hnum =>
    intro h
    simp [isDigits, pyStrip] at h
  simp [exactTierSpec, containsTierSpec, containedByTierSpec, tokenTierSpec, normLabel,
    _account_label, substrB, overlapScore, _normalize, words, joinWords, normChar,
    Char.isAlphanum, Char.isAlpha, Char.isUpper, Char.isLower, Char.isDigit, Char.toLower,
    List.isPrefixOf, maxOverlapSpec, countMaxSpec]

/-- `resolve_account` is the or-chain of its three stages: name match, then
default id (when present in the list), then sole account. -/
theorem resolve_account_eq_or (account_name : Option String) (accounts : List Account)
    (default_account_id : Option Int) :
    resolve_account account_name accounts default_account_id =
      (match_account account_name accounts).or
        ((default_account_id.bind (fun did => (accounts.find?
            (fun acct => acct.id == did)).map (fun a => (a.id, _account_label a)))).or
          (soleFallback accounts)) := by
  cases hm : match_account account_name accounts with
  | some m => simp [resolve_account, hm]
  | none =>
    cases default_account_id with
    | none => simp [resolve_account, hm]
    | some did =>
      cases hf : accounts.find? (fun acct => acct.id == did) with
      | some a => simp [resolve_account, hm, hf]
      | none => simp [resolve_account, hm, hf]

/-- C6: a purely numeric account name is first treated as a literal account
id: if an account with that id is listed, `match_account` returns it (highest
priority in the name-based step); if no account has that id, resolution falls
through to the normalized-name tiers and then to the default-id and
sole-account strategies rather than failing outright. -/
theorem numeric_name_resolution (account_name : String) (accounts : List Account)
    (default_account_id : Option Int)
    (hd : isDigits (pyStrip account_name) = true) :
    (∀ a : Account,
      accounts.find? (fun acct => acct.id == decimalValue (pyStrip account_name)) = some a →
        match_account (some account_name) accounts = some (a.id, _account_label a)) ∧
    (accounts.find? (fun acct => acct.id == decimalValue (pyStrip account_name)) = none →
        resolve_account (some account_name) accounts default_account_id =
          (_match_by_name account_name accounts).or
            ((default_account_id.bind (fun did => (accounts.find?
                (fun acct => acct.id == did)).map (fun a => (a.id, _account_label a)))).or
              (soleFallback accounts))) := by
  have hn : ¬ (account_name = "") := by
    intro h
    rw [h] at hd
    simp [pyStrip, isDigits] at hd
  constructor
  · intro a hfind
    simp only [match_account, if_neg hn, hd, if_true, hfind]
  · intro hfind
    rw [resolve_account_eq_or]
    have hmatch : match_account (some account_name) accounts =
        _match_by_name account_name accounts := by
      simp only [match_account, if_neg hn, hd, if_true, hfind]
    rw [hmatch]

/-- Witness for C6: name `"7"` picks account id 7 by literal id even though
another label matches textually; with id absent, resolution falls through. -/
theorem numeric_name_resolution_witness :
    isDigits (pyStrip "7") = true ∧
    match_account (some "7") [⟨3, none, "seven"⟩, ⟨7, none, "Cash"⟩] = some (7, "Cash") ∧
    resolve_account (some "7") [⟨3, none, "seven"⟩] (some 3) = some (3, "seven") := by
  have hd : isDigits (pyStrip "7") = true := by decide
  refine ⟨hd, ?_, ?_⟩
  · exact (numeric_name_resolution "7" [⟨3, none, "seven"⟩, ⟨7, none, "Cash"⟩] none hd).1
      ⟨7, none, "Cash"⟩ (by decide)
  · rw [(numeric_name_resolution "7" [⟨3, none, "seven"⟩] (some 3) hd).2 (by decide)]
    simp [_match_by_name, matchLoop, matchStep, normLabel, _account_label, substrB,
      overlapScore, _normalize, words, joinWords, normChar, Char.isAlphanum, Char.isAlpha,
      Char.isUpper, Char.isLower, Char.isDigit, Char.toLower, List.isPrefixOf, soleFallback]

/-! ### Token extraction (`_find_text_tokens`, source lines 150-161) -/

/-- Python regex `\s` over the ASCII range (space, tab, newline, carriage
return, vertical tab, form feed). -/
def isSpaceC (c : Char) : Bool :=
  c = ' ' || c = '\t' || c = '\n' || c = '\r' || c.toNat = 11 || c.toNat = 12

/-- The maximal runs of decimal digits in the text, in order. -/
def digitRuns (cs : List Char) : List (List Char) :=
  match cs with
  | [] => []
  | c :: rest =>
    if c.isDigit then
      (c :: rest.takeWhile Char.isDigit) :: digitRuns (rest.dropWhile Char.isDigit)
    else digitRuns rest
termination_by cs.length
decreasing_by
  · simp only [List.length_cons]
    exact Nat.lt_succ_of_le ((List.dropWhile_sublist _).length_le)
  · simp only [List.length_cons]
    exact Nat.lt_succ_of_le (Nat.le_refl _)

/-- First pass of `_find_text_tokens`:
`re.findall(r"(?<!\d)(\d{4})(?!\d)", text)` — a 4-digit group with no digit
on either side is exactly a maximal digit run of length 4. -/
def bareTokens (cs : List Char) : List (List Char) :=
  (digitRuns cs).filter (fun r => r.length = 4)

/-- Case-insensitive literal match (the literal is given lowercase); returns
the remaining suffix. -/
def matchLitCI : List Char → List Char → Option (List Char)
  | [], cs => some cs
  | _ :: _, [] => none
  | l :: ls, c :: cs => if c.toLower = l then matchLitCI ls cs else none

/-- Regex `\s+` (greedy; uniqueness holds because what follows in every use
is a non-space literal): at least one whitespace, consume the maximal run. -/
def matchWS1 (cs : List Char) : Option (List Char) :=
  match cs with
  | c :: rest => if isSpaceC c then some (rest.dropWhile isSpaceC) else none
  | [] => none

/-- Regex tail `\D{0,maxGap}(\d{4})`: all characters before the first digit
must be non-digits, so the match is the first four digits of the first digit
run that starts within `maxGap` non-digit characters; no trailing guard. -/
def matchGapDigits (maxGap : Nat) (cs : List Char) : Option (List Char × List Char) :=
  let k := (cs.takeWhile (fun c => ! c.isDigit)).length
  if k ≤ maxGap then
    let rest := cs.dropWhile (fun c => ! c.isDigit)
    let tok := rest.take 4
    if tok.length = 4 && tok.all Char.isDigit then some (tok, rest.drop 4) else none
  else none

/-- Regex alternation with backtracking into the tail: try each alternative
in order; on an alternative whose tail fails, fall through to the next. -/
def tryAlts (tail : List Char → Option (List Char × List Char)) :
    List (List Char → Option (List Char)) → List Char → Option (List Char × List Char)
  | [], _ => none
  | alt :: more, cs =>
    match alt cs with
    | some rest =>
      match tail rest with
      | some r => some r
      | none => tryAlts tail more cs
    | none => tryAlts tail more cs

/-- A run of two or more characters satisfying `p` (greedy, maximal). -/
def matchRun2 (p : Char → Bool) (cs : List Char) : Option (List Char) :=
  match cs with
  | c1 :: c2 :: _ => if p c1 && p c2 then some (cs.dropWhile p) else none
  | _ => none

/-- `(?:ending|ends\s+with|last\s*4|last4)\D{0,8}(\d{4})` at one position. -/
def patternATry (cs : List Char) : Option (List Char × List Char) :=
  tryAlts (matchGapDigits 8)
    [ matchLitCI "ending".data,
      fun cs => (matchLitCI "ends".data cs).bind
        (fun r => (matchWS1 r).bind (matchLitCI "with".data)),
      fun cs => (matchLitCI "last".data cs).bind
        (fun r => matchLitCI "4".data (r.dropWhile isSpaceC)),
      matchLitCI "last4".data ] cs

/-- `(?:card|visa|mastercard|amex|debit|credit|acct|account)\D{0,24}(\d{4})`
at one position. -/
def patternBTry (cs : List Char) : Option (List Char × List Char) :=
  tryAlts (matchGapDigits 24)
    [ matchLitCI "card".data, matchLitCI "visa".data, matchLitCI "mastercard".data,
      matchLitCI "amex".data, matchLitCI "debit".data, matchLitCI "credit".data,
      matchLitCI "acct".data, matchLitCI "account".data ] cs

/-- `(?:x{2,}|\*{2,}|#{2,}|•{2,}|XX+)\s*(\d{4})` at one position (the
`IGNORECASE` flag makes `XX+` coincide with `x{2,}`). -/
def patternCTry (cs : List Char) : Option (List Char × List Char) :=
  tryAlts
    (fun rest =>
      let r2 := rest.dropWhile isSpaceC
      let tok := r2.take 4
      if tok.length = 4 && tok.all Char.isDigit then some (tok, r2.drop 4) else none)
    [ matchRun2 (fun c => c.toLower = 'x'), matchRun2 (fun c => c = '*'),
      matchRun2 (fun c => c = '#'), matchRun2 (fun c => c = '•'),
      matchRun2 (fun c => c.toLower = 'x') ] cs

/-- Non-overlapping left-to-right scan (`re.findall`): at each position try
the pattern; on a match emit the captured group and resume after the match,
otherwise advance one character. The fuel (instantiated with the text length,
an upper bound on the number of steps since every match consumes at least the
keyword) makes the recursion structural. -/
def scanMatches (tryAt : List Char → Option (List Char × List Char)) :
    Nat → List Char → List (List Char)
  | 0, _ => []
  | _ + 1, [] => []
  | fuel + 1, c :: rest =>
    match tryAt (c :: rest) with
    | some (tok, remaining) => tok :: scanMatches tryAt fuel remaining
    | none => scanMatches tryAt fuel rest

/-- `_find_text_tokens`: the bare 4-digit tokens plus the captures of the
three labeled patterns, as a set (modelled as a deduplicated list; only
membership and emptiness are consumed downstream). -/
def _find_text_tokens (text : String) : List String :=
  let cs := text.data
  ((bareTokens cs ++ scanMatches patternATry (cs.length + 1) cs
      ++ scanMatches patternBTry (cs.length + 1) cs
      ++ scanMatches patternCTry (cs.length + 1) cs).map (fun r => (⟨r⟩ : String))).dedup

/-- The distinct account ids selected by the tokens found in the text:
`{account_id for token, account_id in token_map.items() if token in text_tokens}`. -/
def mappedIds (token_map : List (String × Int)) (text_tokens : List String) : List Int :=
  ((token_map.filter (fun p => text_tokens.contains p.1)).map Prod.snd).dedup

/-- `resolve_account_from_text_tokens`: abstain on an empty map, no tokens in
the text, no mapped ids, or more than one distinct mapped id; otherwise look
the single mapped id up in the account list, abstaining when absent. -/
def resolve_account_from_text_tokens (text : String) (accounts : List Account)
    (token_map : List (String × Int)) : Option (Int × String) :=
  if token_map.isEmpty then none
  else
    let text_tokens := _find_text_tokens text
    if text_tokens.isEmpty then none
    else
      match mappedIds token_map text_tokens with
      | [] => none
      | [account_id] =>
        match accounts.find? (fun acct => acct.id == account_id) with
        | some account => some (account.id, _account_label account)
        | none => none
      | _ :: _ :: _ => none

/-- The account-resolution composition in `handle_text`:
`mapped_account = resolve_account_from_text_tokens(text, accounts, map)` then
`matched_account = mapped_account or resolve_account(account, accounts, default)`. -/
def resolveAccountFlow (text : String) (account_name : Option String)
    (accounts : List Account) (token_map : List (String × Int))
    (default_account_id : Option Int) : Option (Int × String) :=
  match resolve_account_from_text_tokens text accounts token_map with
  | some mapped_account => some mapped_account
  | none => resolve_account account_name accounts default_account_id

/-- C1: account resolution in the message-handling flow is the or-chain of
the four strategies in fixed order — token-map stage over the raw text, then
name-based matching, then the configured default id when present in the list,
then the sole account — and whenever the token-map stage abstains the flow
falls through to `resolve_account` rather than failing. -/
theorem resolution_order (text : String) (account_name : Option String)
    (accounts : List Account) (token_map : List (String × Int))
    (default_account_id : Option Int) :
    (resolveAccountFlow text account_name accounts token_map default_account_id =
      (resolve_account_from_text_tokens text accounts token_map).or
        ((match_account account_name accounts).or
          ((default_account_id.bind (fun did => (accounts.find?
              (fun acct => acct.id == did)).map (fun a => (a.id, _account_label a)))).or
            (soleFallback accounts)))) ∧
    (resolve_account_from_text_tokens text accounts token_map = none →
      resolveAccountFlow text account_name accounts token_map default_account_id =
        resolve_account account_name accounts default_account_id) := by
  constructor
  · cases ht : resolve_account_from_text_tokens text accounts token_map with
    | some m => simp [resolveAccountFlow, ht]
    | none => simp [resolveAccountFlow, ht, resolve_account_eq_or]
  · intro ht
    simp [resolveAccountFlow, ht]

/-- Witness for C1: a text with no usable token makes the token-map stage
abstain, and the flow equals `resolve_account` on the remaining strategies. -/
theorem resolution_order_witness :
    resolve_account_from_text_tokens "lunch 12" [⟨1, none, "Cash"⟩] [("1234", 5)] = none ∧
    resolveAccountFlow "lunch 12" (some "cash") [⟨1, none, "Cash"⟩] [("1234", 5)] none =
      resolve_account (some "cash") [⟨1, none, "Cash"⟩] none := by
  have ht : resolve_account_from_text_tokens "lunch 12" [⟨1, none, "Cash"⟩] [("1234", 5)]
      = none := by
    simp [resolve_account_from_text_tokens, mappedIds, _find_text_tokens, bareTokens,
      digitRuns, scanMatches, patternATry, patternBTry, patternCTry, tryAlts, matchLitCI,
      matchWS1, matchGapDigits, matchRun2, isSpaceC, Char.isDigit, Char.toLower]
  exact ⟨ht,
    (resolution_order "lunch 12" (some "cash") [⟨1, none, "Cash"⟩] [("1234", 5)] none).2 ht⟩

/-- C3: if the 4-digit tokens found in the text map to two or more distinct
account ids the token-map resolver abstains (even when every mapped id is a
listed account); a single mapped id present in the account list yields that
account; a single mapped id absent from the list yields none. -/
theorem token_map_resolution (text : String) (accounts : List Account)
    (token_map : List (String × Int)) :
    (2 ≤ (mappedIds token_map (_find_text_tokens text)).length →
      resolve_account_from_text_tokens text accounts token_map = none) ∧
    (∀ (i : Int) (a : Account),
      mappedIds token_map (_find_text_tokens text) = [i] →
      accounts.find? (fun acct => acct.id == i) = some a →
      resolve_account_from_text_tokens text accounts token_map =
        some (a.id, _account_label a)) ∧
    (∀ i : Int,
      mappedIds token_map (_find_text_tokens text) = [i] →
      accounts.find? (fun acct => acct.id == i) = none →
      resolve_account_from_text_tokens text accounts token_map = none) := by
  cases htm : token_map.isEmpty with
  | true =>
    have htm2 : token_map = [] := by
      cases token_map with
      | nil => rfl
      | cons p t => simp at htm
    have hids : mappedIds token_map (_find_text_tokens text) = [] := by
      simp [htm2, mappedIds]
    rw [hids]
    refine ⟨?_, ?_, ?_⟩
    · intro h
      simp at h
    · intro i a h
      simp at h
    · intro i h
      simp at h
  | false =>
    cases htt : (_find_text_tokens text).isEmpty with
    | true =>
      have htt2 : _find_text_tokens text = [] := by
        cases h : _find_text_tokens text with
        | nil => rfl
        | cons q t => rw [h] at htt; simp at htt
      have hids : mappedIds token_map (_find_text_tokens text) = [] := by
        simp [htt2, mappedIds, List.filter_eq_nil_iff]
      rw [hids]
      refine ⟨?_, ?_, ?_⟩
      · intro h
        simp at h
      · intro i a h
        simp at h
      · intro i h
        simp at h
    | false =>
      refine ⟨?_, ?_, ?_⟩
      · intro hlen
        simp only [resolve_account_from_text_tokens, htm, htt, Bool.false_eq_true, if_false]
        cases hids : mappedIds token_map (_find_text_tokens text) with
        | nil => rfl
        | cons x t =>
          cases t with
          | nil => exact absurd hlen (by rw [hids]; simp)
          | cons y t2 => rfl
      · intro i a hids hfind
        simp only [resolve_account_from_text_tokens, htm, htt, Bool.false_eq_true, if_false,
          hids, hfind]
      · intro i hids hfind
        simp only [resolve_account_from_text_tokens, htm, htt, Bool.false_eq_true, if_false,
          hids, hfind]

/-- Witness for C3 at the spec example: token map `{"1234": 1, "5678": 2}`
and a text containing both tokens abstains although both ids are listed;
one token resolves; a token mapping to an unlisted id abstains. -/
theorem token_map_resolution_witness :
    2 ≤ (mappedIds [("1234", 1), ("5678", 2)]
      (_find_text_tokens "cards 1234 and 5678")).length ∧
    resolve_account_from_text_tokens "cards 1234 and 5678"
      [⟨1, none, "A"⟩, ⟨2, none, "B"⟩] [("1234", 1), ("5678", 2)] = none ∧
    resolve_account_from_text_tokens "card 1234" [⟨1, none, "A"⟩] [("1234", 1)] =
      some (1, "A") ∧
    resolve_account_from_text_tokens "card 5678" [⟨1, none, "A"⟩] [("5678", 9)] = none := by
  have e1 : _find_text_tokens "cards 1234 and 5678" = ["5678", "1234"] := by
    simp [_find_text_tokens, bareTokens, digitRuns, scanMatches, patternATry, patternBTry,
      patternCTry, tryAlts, matchLitCI, matchWS1, matchGapDigits, matchRun2, isSpaceC,
      Char.isDigit, Char.toLower]
  have e2 : _find_text_tokens "card 1234" = ["1234"] := by
    simp [_find_text_tokens, bareTokens, digitRuns, scanMatches, patternATry, patternBTry,
      patternCTry, tryAlts, matchLitCI, matchWS1, matchGapDigits, matchRun2, isSpaceC,
      Char.isDigit, Char.toLower]
  have e3 : _find_text_tokens "card 5678" = ["5678"] := by
    simp [_find_text_tokens, bareTokens, digitRuns, scanMatches, patternATry, patternBTry,
      patternCTry, tryAlts, matchLitCI, matchWS1, matchGapDigits, matchRun2, isSpaceC,
      Char.isDigit, Char.toLower]
  have h1 : mappedIds [("1234", 1), ("5678", 2)]
      (_find_text_tokens "cards 1234 and 5678") = [1, 2] := by
    rw [e1]
    rfl
  refine ⟨by rw [h1]; decide, ?_, ?_, ?_⟩
  · exact (token_map_resolution "cards 1234 and 5678" [⟨1, none, "A"⟩, ⟨2, none, "B"⟩]
      [("1234", 1), ("5678", 2)]).1 (by rw [h1]; decide)
  · exact ((token_map_resolution "card 1234" [⟨1, none, "A"⟩] [("1234", 1)]).2.1 1
      ⟨1, none, "A"⟩ (by rw [e2]; rfl) (by decide))
  · exact ((token_map_resolution "card 5678" [⟨1, none, "A"⟩] [("5678", 9)]).2.2 9
      (by rw [e3]; rfl) (by decide))

/-- C9: the labeled patterns do not require an isolated 4-digit group: in
`"card 123456"` the keyword pattern captures `"1234"`, the first four digits
of the six-digit run, while the bare-token pass alone finds nothing there
because of its adjacent-digit guards. -/
theorem labeled_pattern_captures_long_run :
    _find_text_tokens "card 123456" = ["1234"] ∧ bareTokens ("card 123456".data) = [] := by
  constructor
  · simp [_find_text_tokens, bareTokens, digitRuns, scanMatches, patternATry, patternBTry,
      patternCTry, tryAlts, matchLitCI, matchWS1, matchGapDigits, matchRun2, isSpaceC,
      Char.isDigit, Char.toLower]
  · simp [bareTokens, digitRuns, Char.isDigit]

/-! ### Date parsing (`_tzinfo`, `_parse_date`; source lines 320-336) -/

/-- A naive timestamp (Python `datetime`): calendar date plus time of day. -/
structure DateTime where
  year : Nat
  month : Nat
  day : Nat
  hour : Nat
  minute : Nat
  second : Nat
  microsecond : Nat
  deriving DecidableEq, Repr

/-- An IANA timezone as produced by `zoneinfo.ZoneInfo`: UTC or a named
zone. The database itself is external and passed in as a lookup function. -/
inductive Tz where
  | utc
  | zone (name : String)
  deriving DecidableEq, Repr

/-- `_tzinfo`: `ZoneInfo(timezone)` with the `except` fallback — an unknown
or invalid identifier (a failed database lookup) falls back to UTC. -/
def _tzinfo (zoneDB : String → Option Tz) (timezone : String) : Tz :=
  match zoneDB timezone with
  | some tz => tz
  | Option.none => Tz.utc

/-- Proleptic Gregorian leap year, as `datetime` validates dates. -/
def isLeapYear (y : Nat) : Bool :=
  y % 4 = 0 && (y % 100 ≠ 0 || y % 400 = 0)

def daysInMonth (y m : Nat) : Nat :=
  if m = 2 then (if isLeapYear y then 29 else 28)
  else if m = 4 ∨ m = 6 ∨ m = 9 ∨ m = 11 then 30
  else 31

/-- Numeric value of a run of decimal digits. -/
def natDigitsVal (cs : List Char) : Nat :=
  cs.foldl (fun n c => 10 * n + (c.toNat - 48)) 0

/-- Try candidates in order; first successful continuation wins (regex
alternation with backtracking). -/
def firstSome (cands : List α) (f : α → Option β) : Option β :=
  match cands with
  | [] => Option.none
  | a :: more =>
    match f a with
    | some b => some b
    | Option.none => firstSome more f

/-- CPython `_strptime` `%m` pattern `1[0-2]|0[1-9]|[1-9]`: the possible
(month, rest) readings in alternation order. -/
def monthCands (cs : List Char) : List (Nat × List Char) :=
  (match cs with
    | '1' :: c :: r => if '0' ≤ c ∧ c ≤ '2' then [(10 + (c.toNat - 48), r)] else []
    | _ => []) ++
  (match cs with
    | '0' :: c :: r => if '1' ≤ c ∧ c ≤ '9' then [(c.toNat - 48, r)] else []
    | _ => []) ++
  (match cs with
    | c :: r => if '1' ≤ c ∧ c ≤ '9' then [(c.toNat - 48, r)] else []
    | _ => [])

/-- CPython `_strptime` `%d` pattern `3[01]|[12]\d|0[1-9]|[1-9]`. -/
def dayCands (cs : List Char) : List (Nat × List Char) :=
  (match cs with
    | '3' :: c :: r => if '0' ≤ c ∧ c ≤ '1' then [(30 + (c.toNat - 48), r)] else []
    | _ => []) ++
  (match cs with
    | c1 :: c2 :: r =>
      if ('1' ≤ c1 ∧ c1 ≤ '2') ∧ c2.isDigit then
        [(10 * (c1.toNat - 48) + (c2.toNat - 48), r)]
      else []
    | _ => []) ++
  (match cs with
    | '0' :: c :: r => if '1' ≤ c ∧ c ≤ '9' then [(c.toNat - 48, r)] else []
    | _ => []) ++
  (match cs with
    | c :: r => if '1' ≤ c ∧ c ≤ '9' then [(c.toNat - 48, r)] else []
    | _ => [])

/-- `datetime.strptime(value, "%Y-%m-%d")`: `%Y` is exactly four digits, the
month/day patterns admit one- or two-digit forms, the whole string must be
consumed, and the `datetime` constructor validates the calendar date (year 0
or an out-of-range day raises `ValueError`, caught by the caller). The
result carries time-of-day fields fixed at midnight. -/
def strptimeYMD (s : String) : Option DateTime :=
  match s.data with
  | y1 :: y2 :: y3 :: y4 :: '-' :: rest =>
    if [y1, y2, y3, y4].all Char.isDigit then
      let y := natDigitsVal [y1, y2, y3, y4]
      firstSome (monthCands rest) (fun md =>
        match md.2 with
        | '-' :: r2 =>
          firstSome (dayCands r2) (fun dd =>
            if dd.2 = [] then
              if 1 ≤ y ∧ dd.1 ≤ daysInMonth y md.1 then
                some ⟨y, md.1, dd.1, 0, 0, 0, 0⟩
              else Option.none
            else Option.none)
        | _ => Option.none)
    else Option.none
  | _ => Option.none

/-- `now.replace(hour=0, minute=0, second=0, microsecond=0)`. -/
def truncateToMidnight (dt : DateTime) : DateTime :=
  { dt with hour := 0, minute := 0, second := 0, microsecond := 0 }

/-- `_parse_date`: a truthy value is tried against `%Y-%m-%d`; on success the
parsed date is returned as-is (midnight, no timezone attached); otherwise —
falsy value or parse failure — today, computed as the current instant in the
configured timezone (`datetime.now(tz)`, the clock parameter) truncated to
midnight. -/
def _parse_date (zoneDB : String → Option Tz) (now : Tz → DateTime)
    (value : Option String) (timezone : String) : DateTime :=
  match value with
  | some v =>
    if v ≠ "" then
      match strptimeYMD v with
      | some dt => dt
      | Option.none => truncateToMidnight (now (_tzinfo zoneDB timezone))
    else truncateToMidnight (now (_tzinfo zoneDB timezone))
  | Option.none => truncateToMidnight (now (_tzinfo zoneDB timezone))

/-- The strict `YYYY-MM-DD` format exactly as the spec words it: four
digits, dash, two digits, dash, two digits, naming a valid calendar date. -/
def strictYMDSpec (s : String) : Bool :=
  match s.data with
  | [y1, y2, y3, y4, '-', m1, m2, '-', d1, d2] =>
    [y1, y2, y3, y4, m1, m2, d1, d2].all Char.isDigit &&
    (let y := natDigitsVal [y1, y2, y3, y4]
     let m := natDigitsVal [m1, m2]
     let d := natDigitsVal [d1, d2]
     1 ≤ y && 1 ≤ m && m ≤ 12 && 1 ≤ d && d ≤ daysInMonth y m)
  | _ => false

theorem firstSome_eq_some {α β : Type} (cands : List α) (f : α → Option β) (b : β)
    (h : firstSome cands f = some b) : ∃ a ∈ cands, f a = some b := by
  induction cands with
  | nil => simp [firstSome] at h
  | cons a more ih =>
    rw [firstSome] at h
    cases hf : f a with
    | some b2 =>
      rw [hf] at h
      exact ⟨a, List.mem_cons_self _ _, hf.trans h⟩
    | none =>
      rw [hf] at h
      obtain ⟨x, hx, hfx⟩ := ih h
      exact ⟨x, List.mem_cons_of_mem _ hx, hfx⟩

theorem strptimeYMD_midnight (v : String) (dt : DateTime) (h : strptimeYMD v = some dt) :
    dt.hour = 0 ∧ dt.minute = 0 ∧ dt.second = 0 ∧ dt.microsecond = 0 := by
  rw [strptimeYMD] at h
  split at h
  · split at h
    · obtain ⟨md, _, hmd⟩ := firstSome_eq_some _ _ _ h
      split at hmd
      · obtain ⟨dd, _, hdd⟩ := firstSome_eq_some _ _ _ hmd
        split at hdd
        · split at hdd
          · cases hdd
            exact ⟨rfl, rfl, rfl, rfl⟩
          · simp at hdd
        · simp at hdd
      · simp at hmd
    · simp at h
  · simp at h

/-- C7 counterexample: `"2024-3-5"` does not have the strict `YYYY-MM-DD`
shape, yet `_parse_date` returns the parsed date 2024-03-05T00:00 — CPython
`strptime` accepts one-digit month and day — rather than falling back to
today (2024-03-15T00:00 under the fixed clock), refuting the claim that every
non-strict input yields today. -/
theorem date_parse_strict_counterexample :
    strictYMDSpec "2024-3-5" = false ∧
    _parse_date (fun s => if s = "UTC" then some Tz.utc else Option.none)
      (fun _ => ⟨2024, 3, 15, 10, 0, 0, 0⟩) (some "2024-3-5") "UTC" =
      ⟨2024, 3, 5, 0, 0, 0, 0⟩ ∧
    (⟨2024, 3, 5, 0, 0, 0, 0⟩ : DateTime) ≠ ⟨2024, 3, 15, 0, 0, 0, 0⟩ := by
  refine ⟨by decide, by decide, by decide⟩

/-- C7 (amended): `_parse_date` returns the parsed calendar date at midnight
whenever the input parses under `%Y-%m-%d` (exactly four-digit year, one- or
two-digit month and day, valid calendar date — laxer than strict
`YYYY-MM-DD`); for null, empty, or unparsable values it returns today — the
current instant in the configured timezone truncated to midnight; an unknown
or invalid timezone identifier falls back to UTC without failing; and with a
fixed clock at 2024-03-15T10:00:00Z and timezone UTC, `"not-a-date"` yields
2024-03-15T00:00:00. -/
theorem date_parse_fallback (zoneDB : String → Option Tz) (now : Tz → DateTime) :
    (∀ (v : String) (dt : DateTime), strptimeYMD v = some dt →
      (∀ tz : String, _parse_date zoneDB now (some v) tz = dt) ∧
      dt.hour = 0 ∧ dt.minute = 0 ∧ dt.second = 0 ∧ dt.microsecond = 0) ∧
    (∀ tz : String, _parse_date zoneDB now Option.none tz =
      truncateToMidnight (now (_tzinfo zoneDB tz))) ∧
    (∀ (v : String) (tz : String), strptimeYMD v = Option.none →
      _parse_date zoneDB now (some v) tz = truncateToMidnight (now (_tzinfo zoneDB tz))) ∧
    (∀ tz : String, zoneDB tz = Option.none → _tzinfo zoneDB tz = Tz.utc) ∧
    _parse_date (fun s => if s = "UTC" then some Tz.utc else Option.none)
      (fun _ => ⟨2024, 3, 15, 10, 0, 0, 0⟩) (some "not-a-date") "UTC" =
      ⟨2024, 3, 15, 0, 0, 0, 0⟩ := by
  refine ⟨?_, ?_, ?_, ?_, by decide⟩
  · intro v dt h
    have hv : ¬ (v = "") := by
      intro hv
      rw [hv] at h
      simp [strptimeYMD] at h
    refine ⟨fun tz => ?_, strptimeYMD_midnight v dt h⟩
    simp only [_parse_date, if_pos hv, h]
  · intro tz
    rfl
  · intro v tz h
    by_cases hv : v = ""
    · simp [_parse_date, hv]
    · simp only [_parse_date, if_pos hv, h]
  · intro tz h
    simp [_tzinfo, h]

/-- Witness for the amended C7 at a parsed input: `"2024-03-05"` parses and
`_parse_date` returns it at midnight under any clock and timezone. -/
theorem date_parse_fallback_witness :
    strptimeYMD "2024-03-05" = some ⟨2024, 3, 5, 0, 0, 0, 0⟩ ∧
    _parse_date (fun _ => Option.none) (fun _ => ⟨2024, 3, 15, 10, 0, 0, 0⟩)
      (some "2024-03-05") "Europe/Paris" = ⟨2024, 3, 5, 0, 0, 0, 0⟩ := by
  have h : strptimeYMD "2024-03-05" = some ⟨2024, 3, 5, 0, 0, 0, 0⟩ := by decide
  exact ⟨h, ((date_parse_fallback (fun _ => Option.none)
    (fun _ => ⟨2024, 3, 15, 10, 0, 0, 0⟩)).1 "2024-03-05"
    ⟨2024, 3, 5, 0, 0, 0, 0⟩ h).1 "Europe/Paris"⟩

/-! ### Pending transactions and ledger insertion (source lines 36-51,
411-420, 439-464, 600-614, 626-649) -/

/-- The review-status marker of a ledger transaction
(`TransactionInsertObject.StatusEnum`). -/
inductive TxStatus where
  | cleared
  | uncleared
  deriving DecidableEq, Repr

/-- The `PendingTransaction` dataclass. Amounts are modelled as rationals
(`abs` and negation are exact on floats). -/
structure PendingTransaction where
  chat_id : Int
  original_text : String
  date : DateTime
  amount : ℚ
  currency : String
  payee : String
  account_id : Int
  account_name : String
  category_id : Option Int
  category_name : Option String
  is_received : Bool
  deriving DecidableEq, Repr

/-- The `PendingTransaction` constructed in `handle_text` (lines 600-612):
`amount=abs(amount)`, `currency=currency.upper()`, account and category from
the resolvers. -/
def mkPending (chat_id : Int) (text : String) (parsed_date : DateTime) (amount : ℚ)
    (currency : String) (payee : String) (matched_account : Int × String)
    (matched_category : Option (Int × String)) (is_received : Bool) : PendingTransaction :=
  { chat_id := chat_id
    original_text := text
    date := parsed_date
    amount := |amount|
    currency := currency.toUpper
    payee := payee
    account_id := matched_account.1
    account_name := matched_account.2
    category_id := matched_category.map Prod.fst
    category_name := matched_category.map Prod.snd
    is_received := is_received }

/-- The record handed to the ledger writer (`TransactionInsertObject`). -/
structure TransactionInsertObject where
  date : DateTime
  category_id : Option Int
  payee : String
  amount : ℚ
  currency : String
  status : TxStatus
  asset_id : Int
  deriving DecidableEq, Repr

/-- The record assembled in `insert_transaction` (lines 440-449):
`signed_amount = -abs(pending.amount) if pending.is_received else
abs(pending.amount)`, currency lowercased, status fixed to uncleared. -/
def buildInsertObject (pending : PendingTransaction) : TransactionInsertObject :=
  { date := pending.date
    category_id := pending.category_id
    payee := pending.payee
    amount := if pending.is_received then -|pending.amount| else |pending.amount|
    currency := pending.currency.toLower
    status := TxStatus.uncleared
    asset_id := pending.account_id }

/-- C4: the ledger record built from any pending transaction produced by the
message-handling flow carries a signed amount equal to minus the stored
amount when `is_received` and plus the stored amount otherwise; the stored
amount is the absolute value of the sanitized amount, hence non-negative;
the currency is lowercased; and the status is uncleared, never cleared. -/
theorem insert_sign_convention (chat_id : Int) (text : String) (parsed_date : DateTime)
    (amount : ℚ) (currency : String) (payee : String) (matched_account : Int × String)
    (matched_category : Option (Int × String)) (is_received : Bool) :
    0 ≤ (mkPending chat_id text parsed_date amount currency payee matched_account
        matched_category is_received).amount ∧
    (mkPending chat_id text parsed_date amount currency payee matched_account
        matched_category is_received).amount = |amount| ∧
    (buildInsertObject (mkPending chat_id text parsed_date amount currency payee
        matched_account matched_category is_received)).amount =
      (if is_received then
        -(mkPending chat_id text parsed_date amount currency payee matched_account
            matched_category is_received).amount
      else
        (mkPending chat_id text parsed_date amount currency payee matched_account
            matched_category is_received).amount) ∧
    (buildInsertObject (mkPending chat_id text parsed_date amount currency payee
        matched_account matched_category is_received)).currency =
      (mkPending chat_id text parsed_date amount currency payee matched_account
        matched_category is_received).currency.toLower ∧
    (buildInsertObject (mkPending chat_id text parsed_date amount currency payee
        matched_account matched_category is_received)).status = TxStatus.uncleared ∧
    (buildInsertObject (mkPending chat_id text parsed_date amount currency payee
        matched_account matched_category is_received)).status ≠ TxStatus.cleared := by
  refine ⟨abs_nonneg amount, rfl, ?_, rfl, rfl, fun h => TxStatus.noConfusion h⟩
  simp only [buildInsertObject, mkPending, abs_abs]

/-! ### The pending store and the confirm flow -/

/-- The process-wide pending map `_pending: Dict[int, PendingTransaction]`,
modelled as a total lookup function. -/
def PendingStore : Type := Int → Option PendingTransaction

def set_pending (store : PendingStore) (chat_id : Int) (pending : PendingTransaction) :
    PendingStore :=
  fun c => if c = chat_id then some pending else store c

def get_pending (store : PendingStore) (chat_id : Int) : Option PendingTransaction :=
  store chat_id

def clear_pending (store : PendingStore) (chat_id : Int) : PendingStore :=
  fun c => if c = chat_id then Option.none else store c

/-- The outcome of the ledger client's `insert_transactions` call: raised an
exception, or returned a (possibly empty) list of transaction ids. -/
inductive InsertCallResult where
  | raised
  | returned (tx_ids : List Int)
  deriving DecidableEq, Repr

/-- `insert_transaction` (lines 439-464) as a function of the outcomes of
its two ledger calls: a raising insert call propagates; an empty id list
raises `RuntimeError` (also propagating); otherwise the follow-up status
update is attempted and its failure is caught, returning
`(tx_id, False)` instead of raising. -/
def insert_transaction (insert_call : InsertCallResult) (update_ok : Bool) :
    Except Unit (Int × Bool) :=
  match insert_call with
  | .raised => .error ()
  | .returned [] => .error ()
  | .returned (tx_id :: _) => .ok (tx_id, update_ok)

/-- The user-visible outcome of `handle_confirm`. -/
inductive ConfirmReply where
  | noPending
  | saveFailed
  | saved (tx_id : Int) (forced_unreviewed : Bool)
  deriving DecidableEq, Repr

/-- `handle_confirm` (lines 626-649): with no pending entry answer
`noPending`; if `insert_transaction` raises, answer a generic failure and
leave the store untouched; on success clear the pending entry — regardless
of whether the status-enforcement follow-up succeeded. -/
def handle_confirm (store : PendingStore) (chat_id : Int)
    (insert_call : InsertCallResult) (update_ok : Bool) : PendingStore × ConfirmReply :=
  match get_pending store chat_id with
  | Option.none => (store, .noPending)
  | some _ =>
    match insert_transaction insert_call update_ok with
    | .error _ => (store, .saveFailed)
    | .ok (tx_id, forced) => (clear_pending store chat_id, .saved tx_id forced)

/-- C5: with a pending transaction present, a failed ledger insert leaves the
pending entry unchanged in the store (so the confirm can be retried), while a
successful insert clears it — even when the best-effort post-insert
status-enforcement call failed, the transaction is treated as saved. -/
theorem confirm_retry_semantics (store : PendingStore) (chat_id : Int)
    (p : PendingTransaction) (insert_call : InsertCallResult) (update_ok : Bool)
    (hp : get_pending store chat_id = some p) :
    (∀ e : Unit, insert_transaction insert_call update_ok = .error e →
      handle_confirm store chat_id insert_call update_ok = (store, .saveFailed) ∧
      get_pending (handle_confirm store chat_id insert_call update_ok).1 chat_id = some p) ∧
    (∀ (tx_id : Int) (forced : Bool),
      insert_transaction insert_call update_ok = .ok (tx_id, forced) →
      get_pending (handle_confirm store chat_id insert_call update_ok).1 chat_id =
        Option.none ∧
      (handle_confirm store chat_id insert_call update_ok).2 = .saved tx_id forced) := by
  constructor
  · intro e he
    rw [handle_confirm, hp, he]
    exact ⟨rfl, hp⟩
  · intro tx_id forced hok
    rw [handle_confirm, hp, hok]
    exact ⟨by simp [get_pending, clear_pending], rfl⟩

/-- A concrete store holding one pending transaction for conversation 1. -/
def sampleStore : PendingStore :=
  fun c =>
    if c = 1 then
      some (mkPending 1 "lunch 12.50" ⟨2024, 3, 15, 0, 0, 0, 0⟩ (25/2) "USD" "Subway"
        (1, "Cash") Option.none false)
    else Option.none

/-- Witness for C5: on conversation 1 of `sampleStore`, a raising insert
leaves the entry in place; a successful insert whose status follow-up failed
still clears it. -/
theorem confirm_retry_semantics_witness :
    (handle_confirm sampleStore 1 .raised true = (sampleStore, .saveFailed) ∧
      get_pending (handle_confirm sampleStore 1 .raised true).1 1 =
        some (mkPending 1 "lunch 12.50" ⟨2024, 3, 15, 0, 0, 0, 0⟩ (25/2) "USD" "Subway"
          (1, "Cash") Option.none false)) ∧
    (get_pending (handle_confirm sampleStore 1 (.returned [7]) false).1 1 = Option.none ∧
      (handle_confirm sampleStore 1 (.returned [7]) false).2 = .saved 7 false) := by
  constructor
  · exact (confirm_retry_semantics sampleStore 1 _ .raised true rfl).1 () rfl
  · exact (confirm_retry_semantics sampleStore 1 _ (.returned [7]) false rfl).2 7 false rfl

/-! ### Amount sanitization (`_safe_float`, source lines 298-308) -/

/-- A Python float value: finite (modelled exactly as a rational), an
infinity, or NaN. -/
inductive PyFloat where
  | finite (q : ℚ)
  | inf
  | neginf
  | nan
  deriving DecidableEq, Repr

/-- A loosely-typed value from the decoded model output. Python `bool` is a
subclass of `int`, so `isinstance(True, (int, float))` holds; `other` stands
for lists, objects, and anything else non-numeric and non-string. -/
inductive PyVal where
  | none
  | bool (b : Bool)
  | int (n : Int)
  | float (x : PyFloat)
  | str (s : String)
  | other
  deriving DecidableEq, Repr

/-- A run of digits possibly containing single underscores between digits
(PEP 515, accepted by `float`): collects the digits, stops before anything
else; a dangling or doubled underscore is left unconsumed (failing the
subsequent full-consumption check). -/
def udTail : List Char → List Char × List Char
  | '_' :: c :: rest =>
    if c.isDigit then
      let p := udTail rest
      (c :: p.1, p.2)
    else ([], '_' :: c :: rest)
  | c :: rest =>
    if c.isDigit then
      let p := udTail rest
      (c :: p.1, p.2)
    else ([], c :: rest)
  | [] => ([], [])

/-- A digit run (with underscores) that must start with a digit. -/
def pyDigits (cs : List Char) : Option (List Char × List Char) :=
  match cs with
  | c :: _ => if c.isDigit then some (udTail cs) else Option.none
  | [] => Option.none

/-- `float(s)` on a string: strip, optional sign, then `inf`/`infinity`/
`nan` (case-insensitive) or a decimal literal `digits[.digits][e[sign]digits]`
(also `.digits`), with at least one mantissa digit and the whole string
consumed; everything else raises `ValueError`. The finite value is exact. -/
def parsePyFloat (s : String) : Option PyFloat :=
  let cs0 := (((s.data.dropWhile isSpaceC).reverse).dropWhile isSpaceC).reverse
  let signed : Bool × List Char :=
    match cs0 with
    | '+' :: r => (false, r)
    | '-' :: r => (true, r)
    | r => (false, r)
  let neg := signed.1
  let cs := signed.2
  let low := cs.map Char.toLower
  if low = "inf".data ∨ low = "infinity".data then
    some (if neg then PyFloat.neginf else PyFloat.inf)
  else if low = "nan".data then some PyFloat.nan
  else
    let mant : Option (List Char × List Char × List Char) :=
      match pyDigits cs with
      | some (ip, r1) =>
        match r1 with
        | '.' :: r2 =>
          match pyDigits r2 with
          | some (fp, r3) => some (ip, fp, r3)
          | Option.none => some (ip, [], r2)
        | _ => some (ip, [], r1)
      | Option.none =>
        match cs with
        | '.' :: r2 =>
          match pyDigits r2 with
          | some (fp, r3) => some ([], fp, r3)
          | Option.none => Option.none
        | _ => Option.none
    match mant with
    | Option.none => Option.none
    | some (ip, fp, r3) =>
      let base : ℚ := (natDigitsVal (ip ++ fp) : ℚ) / (10 : ℚ) ^ fp.length
      match r3 with
      | [] => some (.finite (if neg then -base else base))
      | e :: r4 =>
        if e.toLower = 'e' then
          let esigned : Bool × List Char :=
            match r4 with
            | '+' :: r5 => (false, r5)
            | '-' :: r5 => (true, r5)
            | r5 => (false, r5)
          match pyDigits esigned.2 with
          | some (ed, r6) =>
            if r6 = [] then
              let ex : Int := if esigned.1 then -(natDigitsVal ed : Int) else natDigitsVal ed
              some (.finite (if neg then -(base * (10 : ℚ) ^ ex) else base * (10 : ℚ) ^ ex))
            else Option.none
          | Option.none => Option.none
        else Option.none

/-- `_safe_float`: `None` is absent; numeric values pass through (`bool` is
an `int` subclass in Python, so `isinstance(True, (int, float))` holds and
`float(True) == 1.0`); strings are stripped and given to `float(...)`,
absent on `ValueError`; any other type is absent. -/
def _safe_float : PyVal → Option PyFloat
  | .none => Option.none
  | .bool b => some (.finite (if b then 1 else 0))
  | .int n => some (.finite (n : ℚ))
  | .float x => some x
  | .str s => parsePyFloat (pyStrip s)
  | .other => Option.none

/-- C10: the sanitizer treats booleans as numeric — `_safe_float(True)` is
`1.0` and `_safe_float(False)` is `0.0` — while null, strings that `float`
rejects, and non-numeric non-string values are all absent. -/
theorem safe_float_bool_numeric :
    _safe_float (.bool true) = some (.finite 1) ∧
    _safe_float (.bool false) = some (.finite 0) ∧
    _safe_float .none = Option.none ∧
    (∀ s : String, parsePyFloat (pyStrip s) = Option.none →
      _safe_float (.str s) = Option.none) ∧
    _safe_float .other = Option.none :=
  ⟨rfl, rfl, rfl, fun _ h => h, rfl⟩

/-- Witness for C10 on an unparsable string. -/
theorem safe_float_bool_numeric_witness :
    parsePyFloat (pyStrip "twelve") = Option.none ∧
    _safe_float (.str "twelve") = Option.none := by
  have h : parsePyFloat (pyStrip "twelve") = Option.none := by decide
  exact ⟨h, safe_float_bool_numeric.2.2.2.1 "twelve" h⟩

end BudgetLM
